import Mathlib

/-!
# Verification of the Neptune feed-search core (`src/mcp-helpers.js`, `src/lib/mcp-cache.js`)

Shallow embedding of the query parser, relevance scorer, search orchestrator and the
in-memory parse cache of the Neptune feed aggregator, together with proofs settling the
frozen claims about them.

Modelling conventions:
* A JavaScript string is a `List Nat` of Unicode code points (all strings exercised here
  live in the BMP, where code points and UTF-16 code units coincide).
* `String.prototype.toLowerCase` / `toUpperCase` are modelled per code point, exactly
  reproducing the Unicode simple case mappings on the Basic Latin and Greek blocks
  (the only blocks any theorem below evaluates them on); other code points map to
  themselves.
* JavaScript numbers appearing in scores and tolerances are modelled as exact
  fractions (`JSNum`); every arithmetic operation the code performs on them is exact
  in the rationals, so no float behaviour is lost.
* `new Date(s)` valid/invalid results are modelled as `Option Int` (`none` = `NaN`,
  i.e. an invalid date); the JS comparisons `<`/`>` on dates are `false` whenever a
  side is `NaN`, which `jsLtDate`/`jsGtDate` reproduce.
* Loops whose JS termination argument is "the working string shrinks" are written with
  an explicit fuel argument initialised to a value provably larger than the number of
  iterations the JS loop can perform (each iteration consumes at least one character
  of a string of length `n`, and the fuel is `n + 1`), keeping every definition
  kernel-computable.
-/

/-- A JavaScript string: its list of code points. -/
abbrev JSStr := List Nat

/-- Build a `JSStr` from a Lean string literal (convenience for concrete inputs). -/
def str (s : String) : JSStr := s.data.map Char.toNat

/-- `String.prototype.toLowerCase`, per code point: Unicode simple lowercase on the
Basic Latin block (`A`–`Z`) and the Greek block (capitals `Α`(913)–`Ρ`(929) and
`Σ`(931)–`Ϋ`(939) map to +32); identity elsewhere. -/
def jsToLowerCode (c : Nat) : Nat :=
  if 65 ≤ c ∧ c ≤ 90 then c + 32
  else if (913 ≤ c ∧ c ≤ 929) ∨ (931 ≤ c ∧ c ≤ 939) then c + 32
  else c

/-- `String.prototype.toUpperCase`, per code point: `a`–`z`, Greek small letters
`α`(945)–`ρ`(961) and `σ`(963)–`ϋ`(971) map to −32, final sigma `ς`(962) maps to
`Σ`(931); identity elsewhere. -/
def jsToUpperCode (c : Nat) : Nat :=
  if 97 ≤ c ∧ c ≤ 122 then c - 32
  else if (945 ≤ c ∧ c ≤ 961) ∨ (963 ≤ c ∧ c ≤ 971) then c - 32
  else if c = 962 then 931
  else c

/-- Lowercase a whole string. -/
def jsToLower (s : JSStr) : JSStr := s.map jsToLowerCode

/-- ECMAScript `Canonicalize` for a case-insensitive (non-`u`) regular expression:
uppercase the character, but keep the original when that would turn a non-ASCII
character into an ASCII one. -/
def canonicalizeCode (c : Nat) : Nat :=
  let u := jsToUpperCode c
  if 128 ≤ c ∧ u < 128 then c else u

/-- Regular-expression word character (`\w`): `[A-Za-z0-9_]`. -/
def isWordCode (c : Nat) : Bool :=
  decide ((48 ≤ c ∧ c ≤ 57) ∨ (65 ≤ c ∧ c ≤ 90) ∨ (97 ≤ c ∧ c ≤ 122) ∨ c = 95)

/-- Regular-expression whitespace (`\s`) and `String.prototype.trim` whitespace. -/
def isWsCode (c : Nat) : Bool :=
  decide (c = 32 ∨ (9 ≤ c ∧ c ≤ 13) ∨ c = 160 ∨ c = 5760 ∨ (8192 ≤ c ∧ c ≤ 8202) ∨
    c = 8232 ∨ c = 8233 ∨ c = 8239 ∨ c = 8287 ∨ c = 12288 ∨ c = 65279)

/-- Does `s` start with `pat` (code-point equality)? -/
def listStartsWith : JSStr → JSStr → Bool
  | _, [] => true
  | [], _ :: _ => false
  | c :: s, p :: ps => c = p && listStartsWith s ps

/-- `String.prototype.includes`: `pat` occurs contiguously in `s`. -/
def jsIncludes : JSStr → JSStr → Bool
  | [], pat => listStartsWith [] pat
  | c :: rest, pat => listStartsWith (c :: rest) pat || jsIncludes rest pat

/-- Scan for the first occurrence of `pat`, returning its index. -/
def jsIndexOfAux (pat : JSStr) : JSStr → Nat → Option Nat
  | s, i =>
    if listStartsWith s pat then some i
    else
      match s with
      | [] => none
      | _ :: rest => jsIndexOfAux pat rest (i + 1)

/-- `String.prototype.indexOf`: first index of `pat` in `s`, `-1` when absent. -/
def jsIndexOf (s pat : JSStr) : Int :=
  match jsIndexOfAux pat s 0 with
  | some i => (i : Int)
  | none => -1

/-- One row-update of the Levenshtein dynamic program of `levenshteinDistance`
(mcp-helpers.js 308–339): given the previous row (starting at column `j-1`), the
current row cell to the left, and the character `c2` of `str2`, produce the rest of
the current row along `str1`. -/
def levRowAux (c2 : Nat) : JSStr → List Nat → Nat → List Nat
  | [], _, _ => []
  | _ :: _, [], _ => []
  | c1 :: cs, diag :: rest, left =>
    let up := rest.headD 0
    let cur := if c2 = c1 then diag else Nat.min (diag + 1) (Nat.min (left + 1) (up + 1))
    cur :: levRowAux c2 cs rest cur

/-- `levenshteinDistance` (mcp-helpers.js 308–339): matrix dynamic program, rows
indexed by `str2`, columns by `str1`; returns `matrix[len2][len1]`. -/
def levenshteinDistance (str1 str2 : JSStr) : Nat :=
  if str1.length = 0 then str2.length
  else if str2.length = 0 then str1.length
  else
    let row0 := List.range (str1.length + 1)
    let finalRow := str2.foldl
      (fun prev c2 => (prev.headD 0 + 1) :: levRowAux c2 str1 prev (prev.headD 0 + 1))
      row0
    finalRow.getLastD 0

/-- `textLower.split(/\s+/)` with ECMAScript split semantics: each maximal whitespace
run is one separator; leading/trailing separators produce empty pieces. Fuel is
`s.length + 1`: every recursive call consumes at least one character. -/
def jsSplitWsGo : Nat → JSStr → JSStr → List JSStr
  | 0, acc, _ => [acc.reverse]
  | _ + 1, acc, [] => [acc.reverse]
  | fuel + 1, acc, c :: rest =>
    if isWsCode c then acc.reverse :: jsSplitWsGo fuel [] (rest.dropWhile isWsCode)
    else jsSplitWsGo fuel (c :: acc) rest

/-- `s.split(/\s+/)`. -/
def jsSplitWs (s : JSStr) : List JSStr := jsSplitWsGo (s.length + 1) [] s

/-- Is position `j` of `text` occupied by a word character? (Out of range: no.) -/
def isWordAt (text : JSStr) (j : Nat) : Bool :=
  match text.get? j with
  | some c => isWordCode c
  | none => false

/-- Regular-expression word boundary `\b` at position `i` (between `i-1` and `i`). -/
def boundaryAt (text : JSStr) (i : Nat) : Bool :=
  (if i = 0 then false else isWordAt text (i - 1)) != isWordAt text i

/-- Does `s` start with `pat` under case-insensitive regex matching (`Canonicalize`
equality of each character)? -/
def canonStartsWith : JSStr → JSStr → Bool
  | _, [] => true
  | [], _ :: _ => false
  | c :: s, p :: ps => canonicalizeCode p = canonicalizeCode c && canonStartsWith s ps

/-- `new RegExp('\\b' + escapedTerm + '\\b', 'i').test(text)` (mcp-helpers.js 353–354):
the escaped term is a literal, so the regex matches iff at some position a word
boundary holds, the term matches case-insensitively, and a word boundary follows. -/
def wbTest (text pat : JSStr) : Bool :=
  (List.range (text.length + 1)).any fun i =>
    boundaryAt text i && canonStartsWith (text.drop i) pat && boundaryAt text (i + pat.length)

/-- A JavaScript number, as an exact fraction `num / den`.  Every number the search
pipeline computes (scores, tolerances, weights, `0.5` multipliers) is an exact small
rational, so float rounding never occurs and this model is exact.  Comparisons are by
cross-multiplication, which agrees with numeric comparison whenever the denominators
are positive — an invariant of every value the pipeline constructs (literals have
denominator 1 or 10, sums and products multiply denominators); theorems quantifying
over arbitrary `JSNum` inputs carry an explicit `0 < den` hypothesis. -/
structure JSNum where
  num : Int
  den : Nat
  deriving DecidableEq, Repr

instance (n : Nat) : OfNat JSNum n := ⟨⟨n, 1⟩⟩

instance : NatCast JSNum := ⟨fun n => ⟨n, 1⟩⟩

instance : OfScientific JSNum :=
  ⟨fun m s e => if s then ⟨m, 10 ^ e⟩ else ⟨m * 10 ^ e, 1⟩⟩

instance : Add JSNum :=
  ⟨fun a b => ⟨a.num * b.den + b.num * a.den, a.den * b.den⟩⟩

instance : Mul JSNum := ⟨fun a b => ⟨a.num * b.num, a.den * b.den⟩⟩

instance : LT JSNum := ⟨fun a b => a.num * (b.den : Int) < b.num * (a.den : Int)⟩

instance : LE JSNum := ⟨fun a b => a.num * (b.den : Int) ≤ b.num * (a.den : Int)⟩

instance (a b : JSNum) : Decidable (a < b) :=
  inferInstanceAs (Decidable (a.num * (b.den : Int) < b.num * (a.den : Int)))

instance (a b : JSNum) : Decidable (a ≤ b) :=
  inferInstanceAs (Decidable (a.num * (b.den : Int) ≤ b.num * (a.den : Int)))

/-- JavaScript `===` on numbers: value equality (cross-multiplication). -/
def jsNumEq (a b : JSNum) : Bool := a.num * (b.den : Int) == b.num * (a.den : Int)

/-- Result of `matchesTerm`: `{matched: false}`, `{matched: true, exact: true}`, or
`{matched: true, exact: false, distance}`. -/
inductive JsMatch
  | noMatch
  | exact
  | fuzzy (distance : Nat)
  deriving DecidableEq, Repr

/-- The fuzzy-matching loop of `matchesTerm` (mcp-helpers.js 360–370): first word of
the whitespace-split text whose length is within 2 of the term's length (JS signed
arithmetic) and whose edit distance is within tolerance wins. -/
def fuzzyLoop (termLower : JSStr) (fuzzyTolerance : JSNum) : List JSStr → JsMatch
  | [] => .noMatch
  | w :: ws =>
    if (w.length : Int) ≥ (termLower.length : Int) - 2 ∧
        (w.length : Int) ≤ (termLower.length : Int) + 2 then
      let distance := levenshteinDistance termLower w
      if (distance : JSNum) ≤ fuzzyTolerance then .fuzzy distance
      else fuzzyLoop termLower fuzzyTolerance ws
    else fuzzyLoop termLower fuzzyTolerance ws

/-- `matchesTerm` (mcp-helpers.js 342–373). -/
def matchesTerm (text term : JSStr) (useWordBoundary : Bool) (fuzzyTolerance : JSNum) :
    JsMatch :=
  let textLower := jsToLower text
  let termLower := jsToLower term
  if jsIncludes textLower termLower then .exact
  else if useWordBoundary && wbTest text termLower then .exact
  else if fuzzyTolerance > 0 then fuzzyLoop termLower fuzzyTolerance (jsSplitWs textLower)
  else .noMatch

/-! ## Query parser (`parseQuery`, mcp-helpers.js 376–420)

The JS code repeatedly calls `regex.exec` on a string while a `g`-flag regex keeps its
`lastIndex` across calls, and (in the field-term loop) while the subject string itself
is shrunk by `String.prototype.replace` after every match.  The embedding reproduces
this exactly: a scan for the next match never starts before `lastIndex`, and
`lastIndex` advances to the end position of each match. -/

/-- Code points before the first `"` (code 34) of `s`, or `none` when `s` has no
`"`. -/
def takeToQuote : JSStr → Option JSStr
  | [] => none
  | c :: rest => if c = 34 then some [] else (takeToQuote rest).map (c :: ·)

/-- First match of `/"([^"]+)"/` in a string, scanning positions from the given
offset: returns the match position and the captured phrase. -/
def findQuoteAux : JSStr → Nat → Option (Nat × JSStr)
  | [], _ => none
  | c :: rest, p =>
    if c = 34 then
      match takeToQuote rest with
      | some content =>
        if content ≠ [] then some (p, content) else findQuoteAux rest (p + 1)
      | none => none
    else findQuoteAux rest (p + 1)

/-- `s.replace(pat, '')` for a plain-string pattern: remove the first occurrence. -/
def jsReplaceFirst : JSStr → JSStr → JSStr
  | s, pat =>
    if listStartsWith s pat then s.drop pat.length
    else
      match s with
      | [] => []
      | c :: rest => c :: jsReplaceFirst rest pat

/-- The quoted-phrase `while` loop (mcp-helpers.js 383–387): `exec` runs on the
original `query` with advancing `lastIndex`, while each match's text is removed from
the working string.  Each iteration advances `lastIndex` by at least 3, so fuel
`query.length + 1` is never exhausted. -/
def quoteLoopGo (query : JSStr) : Nat → Nat → JSStr → List JSStr → List JSStr × JSStr
  | 0, _, cur, acc => (acc.reverse, cur)
  | fuel + 1, lastIdx, cur, acc =>
    match findQuoteAux (query.drop lastIdx) lastIdx with
    | none => (acc.reverse, cur)
    | some (p, content) =>
      quoteLoopGo query fuel (p + content.length + 2)
        (jsReplaceFirst cur (34 :: (content ++ [34]))) (content :: acc)

/-- Field names recognised by the parser (JS uses the strings "title",
"description", "source"). -/
inductive FName
  | title
  | description
  | source
  deriving DecidableEq, Repr

/-- The code points of a field name. -/
def fieldName : FName → JSStr
  | .title => str "title"
  | .description => str "description"
  | .source => str "source"

/-- Try `/(title|description|source):([^\s]+)/i` at the start of `s` (alternatives in
regex order); returns the field, the captured term, and the matched slice of `s`. -/
def tryFieldAt (s : JSStr) : Option (FName × JSStr × JSStr) :=
  let tryOne : FName → Option (FName × JSStr × JSStr) := fun f =>
    let name := fieldName f
    if canonStartsWith s (name ++ [58]) then
      let term := (s.drop (name.length + 1)).takeWhile (fun c => !isWsCode c)
      if term ≠ [] then some (f, term, s.take (name.length + 1 + term.length))
      else none
    else none
  (tryOne .title).orElse fun _ => (tryOne .description).orElse fun _ => tryOne .source

/-- First match of the field regex in a string, scanning positions from the given
offset. -/
def findFieldAux : JSStr → Nat → Option (Nat × FName × JSStr × JSStr)
  | [], _ => none
  | c :: rest, p =>
    match tryFieldAt (c :: rest) with
    | some (f, term, matchStr) => some (p, f, term, matchStr)
    | none => findFieldAux rest (p + 1)

/-- The four term lists of `fieldQueries` (mcp-helpers.js 377). -/
structure FieldQueries where
  title : List JSStr
  description : List JSStr
  source : List JSStr
  general : List JSStr
  deriving DecidableEq, Repr

/-- `fieldQueries[field].push(term)`. -/
def pushField (f : FName) (t : JSStr) (q : FieldQueries) : FieldQueries :=
  match f with
  | .title => { q with title := q.title ++ [t] }
  | .description => { q with description := q.description ++ [t] }
  | .source => { q with source := q.source ++ [t] }

/-- The field-term `while` loop (mcp-helpers.js 390–398): `exec` runs on the mutating
`currentQuery` with a `lastIndex` that persists across the `replace` calls — the
behaviour responsible for missing field tokens that sit before `lastIndex` after the
string shrinks.  Each successful match removes at least 7 characters from the working
string, so fuel `cur.length + 1` is never exhausted. -/
def fieldLoopGo : Nat → FieldQueries → JSStr → Nat → FieldQueries × JSStr
  | 0, q, cur, _ => (q, cur)
  | fuel + 1, q, cur, lastIdx =>
    match findFieldAux (cur.drop lastIdx) lastIdx with
    | none => (q, cur)
    | some (p, f, term, matchStr) =>
      fieldLoopGo fuel (pushField f term q) (jsReplaceFirst cur matchStr)
        (p + matchStr.length)

/-- One candidate window of `/\s+OR\s+/i`: a whitespace character, `O`, `R`
(case-insensitively), then a whitespace character. -/
def orWindow (a : Nat) : JSStr → Bool
  | b :: c :: d :: _ =>
    isWsCode a && decide (canonicalizeCode b = 79) &&
      decide (canonicalizeCode c = 82) && isWsCode d
  | _ => false

/-- `/\s+OR\s+/i.test(s)`: such a match exists iff some window matches (the
leading/trailing `\s+` can always shrink to one character). -/
def hasOrSep : JSStr → Bool
  | [] => false
  | a :: rest => orWindow a rest || hasOrSep rest

/-- Length of the maximal leading whitespace run. -/
def wsRunLen (s : JSStr) : Nat := (s.takeWhile isWsCode).length

/-- Match `(?:AND|OR)\s+` at the start of `s` (alternatives in regex order, trailing
`\s+` greedy); returns the matched length. -/
def sepTrailing (s : JSStr) : Option Nat :=
  (if canonStartsWith s (str "and") then
    let m := wsRunLen (s.drop 3)
    if 1 ≤ m then some (3 + m) else none
  else none).orElse fun _ =>
    if canonStartsWith s (str "or") then
      let m := wsRunLen (s.drop 2)
      if 1 ≤ m then some (2 + m) else none
    else none

/-- Backtracking over the greedy leading `\s+` of `/\s+(?:AND|OR)\s+/i`: try run
lengths from `k` down to 1. -/
def sepTryK (s : JSStr) : Nat → Option Nat
  | 0 => none
  | k + 1 =>
    match sepTrailing (s.drop (k + 1)) with
    | some t => some (k + 1 + t)
    | none => sepTryK s k

/-- Match `/\s+(?:AND|OR)\s+/i` at the start of `s`; returns the matched length. -/
def matchSepAt (s : JSStr) : Option Nat := sepTryK s (wsRunLen s)

/-- `String.prototype.split` on `/\s+(?:AND|OR)\s+/i`: split at each leftmost
non-overlapping separator match.  Every iteration consumes at least one character, so
fuel `s.length + 1` is never exhausted. -/
def splitSepGo : Nat → JSStr → JSStr → List JSStr
  | 0, acc, _ => [acc.reverse]
  | _ + 1, acc, [] => [acc.reverse]
  | fuel + 1, acc, c :: rest =>
    match matchSepAt (c :: rest) with
    | some L => acc.reverse :: splitSepGo fuel [] ((c :: rest).drop L)
    | none => splitSepGo fuel (c :: acc) rest

/-- `s.split(/\s+(?:AND|OR)\s+/i)`. -/
def jsSplitSep (s : JSStr) : List JSStr := splitSepGo (s.length + 1) [] s

/-- `String.prototype.trim`. -/
def jsTrim (s : JSStr) : JSStr :=
  ((s.dropWhile isWsCode).reverse.dropWhile isWsCode).reverse

/-- The query's global combinator (the strings `'AND'` / `'OR'` in JS). -/
inductive Logic
  | AND
  | OR
  deriving DecidableEq, Repr

/-- Result of `parseQuery` (mcp-helpers.js 414–419). -/
structure ParsedQuery where
  quotedPhrases : List JSStr
  fieldQueries : FieldQueries
  logic : Logic
  allTerms : List JSStr
  deriving DecidableEq, Repr

/-- `parseQuery` (mcp-helpers.js 376–420).  Note that the JS code computes `hasAnd`
but never uses it: `logic` is `'OR'` iff `/\s+OR\s+/i` matches, else `'AND'`. -/
def parseQuery (query : JSStr) : ParsedQuery :=
  let quotes := quoteLoopGo query (query.length + 1) 0 query []
  let fields := fieldLoopGo (quotes.2.length + 1) ⟨[], [], [], []⟩ quotes.2 0
  let logic := if hasOrSep fields.2 then Logic.OR else Logic.AND
  let terms := ((jsSplitSep fields.2).map jsTrim).filter (fun t => t.length ≠ 0)
  { quotedPhrases := quotes.1
    fieldQueries := { fields.1 with general := terms }
    logic := logic
    allTerms := quotes.1 ++ terms ++ fields.1.title ++ fields.1.description ++
      fields.1.source }

/-! ## Relevance scorer (`calculateRelevanceScore`, mcp-helpers.js 423–515) -/

/-- A cached feed item, restricted to the fields the search core reads.  `pubDate`
holds the result of `new Date(item.pubDate)`: `some t` a valid timestamp, `none` an
invalid date (`NaN`).  The JS `(item.title || '')` guards are reflected by the fields
being total strings. -/
structure Item where
  title : JSStr
  description : JSStr
  source : JSStr
  pubDate : Option Int
  deriving DecidableEq, Repr

/-- `matchPositions` of a relevance result: the AND-short-circuit returns the empty
object literal `{}`, every other exit returns `{title: [...], description: [...],
source: [...]}`. -/
inductive MatchPositions
  | emptyObject
  | fields (title description source : List (Nat × Nat))
  deriving DecidableEq, Repr

/-- Result of `calculateRelevanceScore`. -/
structure Relevance where
  score : JSNum
  matchedFields : List FName
  matchPositions : MatchPositions
  deriving DecidableEq, Repr

/-- `{matched}` projection of a `matchesTerm` result. -/
def JsMatch.matched : JsMatch → Bool
  | .noMatch => false
  | .exact => true
  | .fuzzy _ => true

/-- `{exact}` projection of a `matchesTerm` result. -/
def JsMatch.isExact : JsMatch → Bool
  | .exact => true
  | _ => false

/-- The field weights (mcp-helpers.js 433). -/
structure Weights where
  title : JSNum
  description : JSNum
  source : JSNum

/-- `const weights = { title: 3, description: 2, source: 1 }`. -/
def weights : Weights := ⟨3, 2, 1⟩

/-- Mutable state of one `calculateRelevanceScore` call: the accumulator `score`,
the (not yet deduplicated) `matchedFields`, and the three position lists. -/
structure ScoreState where
  score : JSNum
  matchedFields : List FName
  posTitle : List (Nat × Nat)
  posDescription : List (Nat × Nat)
  posSource : List (Nat × Nat)
  deriving DecidableEq, Repr

/-- Helper for `jsSetDedup`: keep elements not yet seen. -/
def jsSetDedupGo {α : Type} [DecidableEq α] (seen : List α) : List α → List α
  | [] => []
  | x :: xs =>
    if seen.contains x then jsSetDedupGo seen xs
    else x :: jsSetDedupGo (seen ++ [x]) xs

/-- `[...new Set(l)]`: deduplicate keeping first occurrences in insertion order. -/
def jsSetDedup {α : Type} [DecidableEq α] (l : List α) : List α := jsSetDedupGo [] l

/-- One iteration of the quoted-phrase loop (mcp-helpers.js 436–456) over the three
lowercased fields. -/
def phraseStep (title description source : JSStr) (st : ScoreState) (phrase : JSStr) :
    ScoreState :=
  let phraseLower := jsToLower phrase
  let push : JSStr → List (Nat × Nat) → List (Nat × Nat) := fun field pos =>
    let index := jsIndexOf field phraseLower
    if index ≥ 0 then pos ++ [(index.toNat, index.toNat + phraseLower.length)] else pos
  let st :=
    if jsIncludes title phraseLower then
      { st with score := st.score + weights.title * 10
                matchedFields := st.matchedFields ++ [.title]
                posTitle := push title st.posTitle }
    else st
  let st :=
    if jsIncludes description phraseLower then
      { st with score := st.score + weights.description * 10
                matchedFields := st.matchedFields ++ [.description]
                posDescription := push description st.posDescription }
    else st
  if jsIncludes source phraseLower then
    { st with score := st.score + weights.source * 10
              matchedFields := st.matchedFields ++ [.source]
              posSource := push source st.posSource }
  else st

/-- `if (!matchedFields.includes(f)) matchedFields.push(f)`. -/
def pushFieldName (f : FName) (l : List FName) : List FName :=
  if l.contains f then l else l ++ [f]

/-- One iteration of the `title:`-terms loop (mcp-helpers.js 459–465). -/
def titleTermStep (title : JSStr) (wb : Bool) (ft : JSNum) (st : ScoreState) (term : JSStr) :
    ScoreState :=
  let m := matchesTerm title term wb ft
  if m.matched then
    { st with score := st.score + weights.title * (if m.isExact then 3 else 1)
              matchedFields := pushFieldName .title st.matchedFields }
  else st

/-- One iteration of the `description:`-terms loop (mcp-helpers.js 467–473). -/
def descriptionTermStep (description : JSStr) (wb : Bool) (ft : JSNum) (st : ScoreState)
    (term : JSStr) : ScoreState :=
  let m := matchesTerm description term wb ft
  if m.matched then
    { st with score := st.score + weights.description * (if m.isExact then 2 else 1)
              matchedFields := pushFieldName .description st.matchedFields }
  else st

/-- One iteration of the `source:`-terms loop (mcp-helpers.js 475–481). -/
def sourceTermStep (source : JSStr) (wb : Bool) (ft : JSNum) (st : ScoreState)
    (term : JSStr) : ScoreState :=
  let m := matchesTerm source term wb ft
  if m.matched then
    { st with score := st.score + weights.source * (if m.isExact then 1 else 0.5)
              matchedFields := pushFieldName .source st.matchedFields }
  else st

/-- Final (non-short-circuit) return value (mcp-helpers.js 514). -/
def finalizeScore (st : ScoreState) : Relevance :=
  ⟨st.score, jsSetDedup st.matchedFields, .fields st.posTitle st.posDescription st.posSource⟩

/-- The general-terms loop (mcp-helpers.js 484–512), including the AND-logic early
`return {score: 0, matchedFields: [], matchPositions: {}}` the moment a general term
matches in no field. -/
def generalLoop (title description source : JSStr) (wb : Bool) (ft : JSNum)
    (logic : Logic) : List JSStr → ScoreState → Relevance
  | [], st => finalizeScore st
  | term :: rest, st =>
    let titleMatch := matchesTerm title term wb ft
    let st :=
      if titleMatch.matched then
        { st with score := st.score + weights.title * (if titleMatch.isExact then 3 else 1)
                  matchedFields := pushFieldName .title st.matchedFields }
      else st
    let descMatch := matchesTerm description term wb ft
    let st :=
      if descMatch.matched then
        { st with
            score := st.score + weights.description * (if descMatch.isExact then 2 else 1)
            matchedFields := pushFieldName .description st.matchedFields }
      else st
    let sourceMatch := matchesTerm source term wb ft
    let st :=
      if sourceMatch.matched then
        { st with score := st.score + weights.source * (if sourceMatch.isExact then 1 else 0.5)
                  matchedFields := pushFieldName .source st.matchedFields }
      else st
    let termMatched := titleMatch.matched || descMatch.matched || sourceMatch.matched
    if logic = Logic.AND ∧ termMatched = false then ⟨0, [], .emptyObject⟩
    else generalLoop title description source wb ft logic rest st

/-- `calculateRelevanceScore` (mcp-helpers.js 423–515). -/
def calculateRelevanceScore (item : Item) (parsedQuery : ParsedQuery)
    (useWordBoundary : Bool) (fuzzyTolerance : JSNum) : Relevance :=
  let title := jsToLower item.title
  let description := jsToLower item.description
  let source := jsToLower item.source
  let st : ScoreState := ⟨0, [], [], [], []⟩
  let st := parsedQuery.quotedPhrases.foldl (phraseStep title description source) st
  let st := parsedQuery.fieldQueries.title.foldl
    (titleTermStep title useWordBoundary fuzzyTolerance) st
  let st := parsedQuery.fieldQueries.description.foldl
    (descriptionTermStep description useWordBoundary fuzzyTolerance) st
  let st := parsedQuery.fieldQueries.source.foldl
    (sourceTermStep source useWordBoundary fuzzyTolerance) st
  generalLoop title description source useWordBoundary fuzzyTolerance parsedQuery.logic
    parsedQuery.fieldQueries.general st

/-! ## Search orchestrator (`searchCachedFeeds`, mcp-helpers.js 518–657)

The orchestrator's I/O (OPML metadata, cache-file reads, item caches) is abstracted
into its outcome: a `CachedFeed` per feed of the resolved metadata list, carrying the
item list its cache yields (a missing or unreadable cache contributes an empty list).
The intra-call concurrency of `Promise.all` is made explicit: each feed task writes
its result into its own slot of the chunk's result array, in an arbitrary completion
order given by a schedule; `Promise.all` then hands back the slots in array order.
The wall-clock `searchTimeMs` metadata field is the only part of the result not
modelled. -/

/-- `a < b` for two `new Date(..)` values: `false` whenever either side is `NaN`. -/
def jsLtDate (a b : Option Int) : Bool :=
  match a, b with
  | some x, some y => decide (x < y)
  | _, _ => false

/-- `a > b` for two `new Date(..)` values: `false` whenever either side is `NaN`. -/
def jsGtDate (a b : Option Int) : Bool :=
  match a, b with
  | some x, some y => decide (x > y)
  | _, _ => false

/-- The date-range filter (mcp-helpers.js 581–588).  A bound is `none` when the
option is absent (or falsy, e.g. the empty string), `some none` when a supplied
string fails to parse (`new Date` gives `NaN`), and `some (some t)` when it parses
to the timestamp `t`. -/
def dateRangeFilter (dateFrom dateTo : Option (Option Int)) (items : List Item) :
    List Item :=
  if dateFrom.isSome || dateTo.isSome then
    items.filter fun item =>
      !(match dateFrom with
        | some f => jsLtDate item.pubDate f
        | none => false) &&
      !(match dateTo with
        | some t => jsGtDate item.pubDate t
        | none => false)
  else items

/-- A search hit: the item spread together with `feedUrl` and the relevance data
(mcp-helpers.js 606–612). -/
structure ScoredItem where
  item : Item
  feedUrl : JSStr
  relevanceScore : JSNum
  matchedFields : List FName
  matchPositions : MatchPositions
  deriving DecidableEq, Repr

/-- The options object of `searchCachedFeeds` with its destructuring defaults
(mcp-helpers.js 526–533). -/
structure SearchOptions where
  useWordBoundary : Bool := true
  fuzzyTolerance : JSNum := 1
  dateFrom : Option (Option Int) := none
  dateTo : Option (Option Int) := none
  feedUrls : Option (List JSStr) := none
  perFeedLimit : Nat := 10

/-- One feed as the search sees it: its URL and the items its cache yields. -/
structure CachedFeed where
  url : JSStr
  items : List Item
  deriving DecidableEq, Repr

instance : Inhabited CachedFeed := ⟨⟨[], []⟩⟩

/-- Insert `x` into a sorted list, after every element that strictly precedes it:
the stable insertion step. -/
def stableInsert {α : Type} (before : α → α → Bool) (x : α) : List α → List α
  | [] => [x]
  | y :: ys => if before y x then y :: stableInsert before x ys else x :: y :: ys

/-- Stable sort by a strict precedence predicate.  ECMAScript `Array.prototype.sort`
is required to be stable, and for a consistent comparator the stable sorted
permutation is unique, so insertion sort reproduces it; `before a b` is
`comparator(a, b) < 0`. -/
def stableSortBy {α : Type} (before : α → α → Bool) : List α → List α
  | [] => []
  | x :: xs => stableInsert before x (stableSortBy before xs)

/-- The per-feed comparator `(a, b) => b.relevanceScore - a.relevanceScore`
(mcp-helpers.js 615) as a strict precedence: the difference is negative iff
`b.relevanceScore < a.relevanceScore`. -/
def perFeedBefore (a b : ScoredItem) : Bool :=
  decide (b.relevanceScore < a.relevanceScore)

/-- The global comparator (mcp-helpers.js 630–635) as a strict precedence: score
descending, then `new Date(b.pubDate) - new Date(a.pubDate)`; a `NaN` comparator
value is treated as `+0` by `SortCompare`, i.e. no precedence. -/
def globalBefore (a b : ScoredItem) : Bool :=
  if jsNumEq b.relevanceScore a.relevanceScore then
    match b.item.pubDate, a.item.pubDate with
    | some tb, some ta => decide (tb < ta)
    | _, _ => false
  else decide (b.relevanceScore < a.relevanceScore)

/-- Resolution of the feed set to search (mcp-helpers.js 540–542): intersect with
the `feedUrls` allow-list when given. -/
def resolveFeeds (feeds : List CachedFeed) (feedUrls : Option (List JSStr)) :
    List CachedFeed :=
  match feedUrls with
  | some urls => feeds.filter fun feed => urls.contains feed.url
  | none => feeds

/-- The body of one per-feed task (mcp-helpers.js 579–618): date-filter the feed's
items, score each against the parsed query, drop `null`s (AND logic with score 0) and
non-positive scores, sort by score descending, truncate to `perFeedLimit`. -/
def processFeed (pq : ParsedQuery) (wb : Bool) (ft : JSNum)
    (dateFrom dateTo : Option (Option Int)) (perFeedLimit : Nat)
    (feed : CachedFeed) : List ScoredItem :=
  let items := dateRangeFilter dateFrom dateTo feed.items
  let mapped := items.map fun item =>
    let relevance := calculateRelevanceScore item pq wb ft
    if pq.logic = Logic.AND ∧ jsNumEq relevance.score 0 then none
    else
      some { item := item
             feedUrl := feed.url
             relevanceScore := relevance.score
             matchedFields := relevance.matchedFields
             matchPositions := relevance.matchPositions }
  let filtered := (mapped.filterMap id).filter fun s => decide ((0 : JSNum) < s.relevanceScore)
  (stableSortBy perFeedBefore filtered).take perFeedLimit

/-- Chunking of the feed list into concurrency batches (mcp-helpers.js 545–549).
Fuel is `l.length + 1`; each step consumes `n ≥ 1` elements. -/
def chunksOfGo {α : Type} (n : Nat) : Nat → List α → List (List α)
  | _, [] => []
  | 0, _ :: _ => []
  | fuel + 1, l@(_ :: _) => l.take n :: chunksOfGo n fuel (l.drop n)

/-- `feedChunks`: slices of size `n` (the code uses `concurrencyLimit = 10`). -/
def chunksOf {α : Type} (n : Nat) (l : List α) : List (List α) :=
  chunksOfGo n (l.length + 1) l

/-- `Promise.all` result slots after the tasks complete in the order `sched`:
task `i` writes `f i` into slot `i` when it completes. -/
def promiseAll {β : Type} (f : Nat → β) (n : Nat) (sched : List Nat) :
    List (Option β) :=
  sched.foldl (fun acc i => acc.set i (some (f i))) (List.replicate n none)

/-- `await Promise.all(chunk.map(processFeed))`: the chunk's result arrays in slot
order after completion order `sched`; an unfilled slot reads as `[]` (with a valid
schedule every slot is filled — `promiseAll_eq_map` below). -/
def chunkRun (process : CachedFeed → List ScoredItem) (chunk : List CachedFeed)
    (sched : List Nat) : List (List ScoredItem) :=
  (promiseAll (fun i => process (chunk.getD i default)) chunk.length sched).map
    (fun o => o.getD [])

/-- The sequential loop over chunks (mcp-helpers.js 551–627):
`results.push(...chunkResults.flat())` for each chunk in order; `sched k` is the
completion order of the feeds of chunk `k`. -/
def runChunks (process : CachedFeed → List ScoredItem) (sched : Nat → List Nat) :
    List (List CachedFeed) → Nat → List ScoredItem
  | [], _ => []
  | chunk :: rest, k =>
    (chunkRun process chunk (sched k)).flatten ++ runChunks process sched rest (k + 1)

/-- The `metadata` object of a search result (mcp-helpers.js 643–655), minus the
wall-clock `searchTimeMs`.  `queryParsed` carries `logic`, `quotedPhrases`,
`terms = allTerms` and `fieldQueries`, i.e. exactly the data of the `ParsedQuery`. -/
structure SearchMetadata where
  totalMatches : Nat
  returnedMatches : Nat
  feedsSearched : Nat
  feedsWithMatches : Nat
  queryParsed : ParsedQuery
  deriving DecidableEq, Repr

/-- The value returned by `searchCachedFeeds` (mcp-helpers.js 640–656). -/
structure SearchResult where
  query : JSStr
  results : List ScoredItem
  metadata : SearchMetadata
  deriving DecidableEq, Repr

/-- `searchCachedFeeds` (mcp-helpers.js 518–657), as a function of the cache state
(`feeds`: the resolved feed metadata with the items each cache read yields), the
query, `limit`, the options, and the completion schedules of the concurrency
batches. -/
def searchCachedFeedsCore (feeds : List CachedFeed) (query : JSStr) (limit : Nat)
    (opts : SearchOptions) (sched : Nat → List Nat) : SearchResult :=
  let parsedQuery := parseQuery query
  let feedsToSearch := resolveFeeds feeds opts.feedUrls
  let process := processFeed parsedQuery opts.useWordBoundary opts.fuzzyTolerance
    opts.dateFrom opts.dateTo opts.perFeedLimit
  let merged := runChunks process sched (chunksOf 10 feedsToSearch) 0
  let sorted := stableSortBy globalBefore merged
  let finalResults := sorted.take limit
  { query := query
    results := finalResults
    metadata :=
      { totalMatches := sorted.length
        returnedMatches := finalResults.length
        feedsSearched := feedsToSearch.length
        feedsWithMatches := (jsSetDedup (finalResults.map (·.feedUrl))).length
        queryParsed := parsedQuery } }

/-! ## Exception-channel view of the orchestrator (claim C3)

`calculateRelevanceScore` as embedded above is total, so to reason about the fate of
a scorer exception the orchestrator is parameterised by a scorer in the `Except`
monad (`.error` = a thrown exception).  The per-feed `try { ... } catch (error) {
return []; }` of mcp-helpers.js 558–622 wraps the whole feed task body, scorer calls
included; `jsTryCatch` places the handler exactly there. -/

/-- JavaScript `try { body } catch (e) { handler(e) }` for an embedded computation. -/
def jsTryCatch {ε α : Type} (body : Except ε α) (handler : ε → α) : α :=
  match body with
  | .ok v => v
  | .error e => handler e

/-- The per-feed task body (mcp-helpers.js 579–618) with a fallible scorer: the first
scorer exception aborts the feed's `.map` and escapes the task body. -/
def processFeedE (scorer : Item → ParsedQuery → Bool → JSNum → Except String Relevance)
    (pq : ParsedQuery) (wb : Bool) (ft : JSNum) (dateFrom dateTo : Option (Option Int))
    (perFeedLimit : Nat) (feed : CachedFeed) : Except String (List ScoredItem) := do
  let items := dateRangeFilter dateFrom dateTo feed.items
  let mapped ← items.mapM fun item => do
    let relevance ← scorer item pq wb ft
    pure <|
      if pq.logic = Logic.AND ∧ jsNumEq relevance.score 0 then none
      else
        some { item := item
               feedUrl := feed.url
               relevanceScore := relevance.score
               matchedFields := relevance.matchedFields
               matchPositions := relevance.matchPositions }
  let filtered := (mapped.filterMap id).filter fun s => decide ((0 : JSNum) < s.relevanceScore)
  pure ((stableSortBy perFeedBefore filtered).take perFeedLimit)

/-- One chunk with a fallible scorer: each task body runs inside the per-feed
`try`/`catch`, which converts an exception into `[]` for that feed. -/
def chunkRunE (process : CachedFeed → Except String (List ScoredItem))
    (chunk : List CachedFeed) (sched : List Nat) : List (List ScoredItem) :=
  (promiseAll (fun i => jsTryCatch (process (chunk.getD i default)) fun _ => [])
    chunk.length sched).map (fun o => o.getD [])

/-- The sequential chunk loop with a fallible scorer. -/
def runChunksE (process : CachedFeed → Except String (List ScoredItem))
    (sched : Nat → List Nat) : List (List CachedFeed) → Nat → List ScoredItem
  | [], _ => []
  | chunk :: rest, k =>
    (chunkRunE process chunk (sched k)).flatten ++ runChunksE process sched rest (k + 1)

/-- `searchCachedFeeds` with a fallible scorer, in the `Except` monad: an uncaught
exception anywhere in the orchestrator would surface as `.error`.  The per-feed
handler sits inside `runChunksE`/`chunkRunE` exactly where the JS `try`/`catch`
sits, and nothing outside it can throw. -/
def searchCachedFeedsE (scorer : Item → ParsedQuery → Bool → JSNum → Except String Relevance)
    (feeds : List CachedFeed) (query : JSStr) (limit : Nat) (opts : SearchOptions)
    (sched : Nat → List Nat) : Except String SearchResult := do
  let parsedQuery := parseQuery query
  let feedsToSearch := resolveFeeds feeds opts.feedUrls
  let process := processFeedE scorer parsedQuery opts.useWordBoundary
    opts.fuzzyTolerance opts.dateFrom opts.dateTo opts.perFeedLimit
  let merged := runChunksE process sched (chunksOf 10 feedsToSearch) 0
  let sorted := stableSortBy globalBefore merged
  let finalResults := sorted.take limit
  pure
    { query := query
      results := finalResults
      metadata :=
        { totalMatches := sorted.length
          returnedMatches := finalResults.length
          feedsSearched := feedsToSearch.length
          feedsWithMatches := (jsSetDedup (finalResults.map (·.feedUrl))).length
          queryParsed := parsedQuery } }

/-! ## In-memory parse cache (`src/lib/mcp-cache.js`)

`LRUCache` (mcp-cache.js 16–56) wraps a JS `Map`, modelled as an insertion-ordered
association list.  The class defines `get`, `set`, `has`, `clear` and `size` — and no
`delete` — so the call `parsedFeedCache.delete(cachePath)` in `getCachedParsedFeed`
(mcp-cache.js 198) is a call of an undefined property and throws a `TypeError`;
the embedding returns that as an `.error`. -/

/-- One entry of the parsed-feed cache: `{ parsedFeed, mtime }` (mcp-cache.js
205–208); the parsed feed itself is opaque to the cache. -/
structure CacheEntry (α : Type) where
  parsedFeed : α
  mtime : Int
  deriving DecidableEq, Repr

/-- `LRUCache` (mcp-cache.js 16–56): a capacity and a JS `Map` in insertion order. -/
structure LRUCache (α : Type) where
  maxSize : Nat
  cache : List (JSStr × α)
  deriving DecidableEq, Repr

/-- `Map.prototype.has`. -/
def LRUCache.hasKey {α : Type} (c : LRUCache α) (k : JSStr) : Bool :=
  c.cache.any fun kv => kv.1 = k

/-- `Map.prototype.get` (keys are unique in a `Map`). -/
def mapGet {α : Type} (m : List (JSStr × α)) (k : JSStr) : Option α :=
  (m.find? fun kv => kv.1 = k).map (·.2)

/-- `Map.prototype.delete`: remove the entry with the given key. -/
def mapDelete {α : Type} (m : List (JSStr × α)) (k : JSStr) : List (JSStr × α) :=
  m.filter fun kv => kv.1 ≠ k

/-- `LRUCache.get` (mcp-cache.js 22–31): `null` on a miss; on a hit, move the entry
to the most-recently-used end and return its value.  The JS method mutates the
cache, so the new cache state is returned alongside the value. -/
def LRUCache.get {α : Type} (c : LRUCache α) (k : JSStr) : Option α × LRUCache α :=
  if c.hasKey k then
    match mapGet c.cache k with
    | some v => (some v, { c with cache := mapDelete c.cache k ++ [(k, v)] })
    | none => (none, c)
  else (none, c)

/-- `LRUCache.set` (mcp-cache.js 33–43): delete an existing entry with the same key,
else evict the least-recently-used (first) entry when at capacity; then append. -/
def LRUCache.set {α : Type} (c : LRUCache α) (k : JSStr) (v : α) : LRUCache α :=
  let c :=
    if c.hasKey k then { c with cache := mapDelete c.cache k }
    else if c.cache.length ≥ c.maxSize then
      { c with cache := c.cache.tail }
    else c
  { c with cache := c.cache ++ [(k, v)] }

/-- `getCachedParsedFeed` (mcp-cache.js 184–212).  The file system is abstracted to
what the function reads of it: `fsExists` = `fs.existsSync(cachePath)` and `fsMtime`
= `stats.mtime.getTime()`; `parseFn` is the result the supplied parse function
resolves to (`none` = it resolved to `null`).  Returns the resolved value and the
new cache state, or `.error` for a thrown exception: on the stale path the code
calls `parsedFeedCache.delete`, a method `LRUCache` does not define, so a
`TypeError` is thrown before any reparse can happen. -/
def getCachedParsedFeed {α : Type} (parsedFeedCache : LRUCache (CacheEntry α))
    (cachePath : JSStr) (fsExists : Bool) (fsMtime : Int) (parseFn : Option α) :
    Except String (Option α × LRUCache (CacheEntry α)) :=
  if parsedFeedCache.hasKey cachePath then
    match parsedFeedCache.get cachePath with
    | (some cached, c1) =>
      if fsExists ∧ fsMtime = cached.mtime then .ok (some cached.parsedFeed, c1)
      else .error "TypeError: parsedFeedCache.delete is not a function"
    | (none, _) => .error "TypeError: parsedFeedCache.delete is not a function"
  else
    match parseFn with
    | some parsed =>
      if fsExists then .ok (some parsed, parsedFeedCache.set cachePath ⟨parsed, fsMtime⟩)
      else .ok (some parsed, parsedFeedCache)
    | none => .ok (none, parsedFeedCache)

/-- A completion order for a chunk of `n` tasks is valid when every task completes. -/
def ValidSched (sched : List Nat) (n : Nat) : Prop := ∀ i, i < n → i ∈ sched

/-- A scorer that throws on every call (modelling a structural/programming error in
query handling, e.g. a scorer invoked with a malformed parsed query). -/
def throwingScorer : Item → ParsedQuery → Bool → JSNum → Except String Relevance :=
  fun _ _ _ _ => .error "TypeError: Cannot read properties of undefined"

/-- A one-item feed used to exercise the exception channel. -/
def feedF : CachedFeed := ⟨str "f", [⟨str "alpha", [], [], some 0⟩]⟩

/-! ## Helper lemmas -/

/-- If every field fails for some general term of the list, the general-terms loop
of the scorer returns the zero result under AND logic, whatever was accumulated. -/
theorem generalLoop_zero_of_failing (title description source : JSStr) (wb : Bool)
    (ft : JSNum) {gs : List JSStr} {t : JSStr} (ht : t ∈ gs)
    (h1 : (matchesTerm title t wb ft).matched = false)
    (h2 : (matchesTerm description t wb ft).matched = false)
    (h3 : (matchesTerm source t wb ft).matched = false) :
    ∀ st, generalLoop title description source wb ft Logic.AND gs st =
      ⟨0, [], .emptyObject⟩ := by
  induction gs with
  | nil => cases ht
  | cons hd tl ih =>
    intro st
    rcases List.mem_cons.mp ht with rfl | htl
    · simp only [generalLoop, h1, h2, h3]
      simp
    · simp only [generalLoop]
      split
      · rfl
      · exact ih htl _

/-! ## Claim theorems -/

/-- C1: with AND logic, if some general term matches in none of the three fields,
`calculateRelevanceScore` returns exactly `{score: 0, matchedFields: [],
matchPositions: {}}`, discarding any quoted-phrase and field-term contributions
accumulated before the failing term. -/
theorem c1_and_short_circuit (item : Item) (pq : ParsedQuery) (wb : Bool) (ft : JSNum)
    (hAND : pq.logic = Logic.AND) (t : JSStr) (ht : t ∈ pq.fieldQueries.general)
    (h1 : (matchesTerm (jsToLower item.title) t wb ft).matched = false)
    (h2 : (matchesTerm (jsToLower item.description) t wb ft).matched = false)
    (h3 : (matchesTerm (jsToLower item.source) t wb ft).matched = false) :
    calculateRelevanceScore item pq wb ft = ⟨0, [], .emptyObject⟩ := by
  unfold calculateRelevanceScore
  rw [hAND]
  exact generalLoop_zero_of_failing _ _ _ _ _ ht h1 h2 h3 _

/-- Witness for C1: query `"alpha" alpha AND beta` parses with AND logic and general
terms `alpha`, `beta`; an item titled `alpha` (phrase and first term match, `beta`
matches nowhere) is zeroed. -/
theorem c1_and_short_circuit_witness :
    (parseQuery (str "\"alpha\" alpha AND beta")).logic = Logic.AND ∧
    str "beta" ∈ (parseQuery (str "\"alpha\" alpha AND beta")).fieldQueries.general ∧
    calculateRelevanceScore ⟨str "alpha", [], [], some 0⟩
      (parseQuery (str "\"alpha\" alpha AND beta")) true 0 = ⟨0, [], .emptyObject⟩ :=
  ⟨by decide, by decide,
    c1_and_short_circuit _ _ _ _ (by decide) (str "beta") (by decide) (by decide)
      (by decide) (by decide)⟩

/-- C2 (code bug): on the query `title:QGIS AND source:geoObserver` the field-term
loop extracts `title:QGIS` but then — because the regex `lastIndex` persists while
`currentQuery` has shrunk — fails to find `source:geoObserver`, which survives into
the general terms; the parse is `title = [QGIS]`, `source = []`,
`general = ["source:geoObserver"]` rather than the spec's
`title = [QGIS]`, `source = [geoObserver]`, `general = []`. -/
theorem c2_field_term_lastIndex_bug :
    parseQuery (str "title:QGIS AND source:geoObserver") =
      { quotedPhrases := []
        fieldQueries := ⟨[str "QGIS"], [], [], [str "source:geoObserver"]⟩
        logic := .AND
        allTerms := [str "source:geoObserver", str "QGIS"] } := by decide

/-- C4 (counterexample): an item whose title contains the quoted phrase `alpha` and
exactly matches the general term `alpha` (description and source empty) scores 39
from the title — phrase bonus `weights.title * 10 = 30` plus exact general-term
match `weights.title * 3 = 9` — not the claimed `20 + 9 = 29`. -/
theorem c4_counterexample :
    (calculateRelevanceScore ⟨str "alpha", [], [], some 0⟩
      (parseQuery (str "\"alpha\" alpha")) true 0).score = 39 ∧
    jsNumEq 39 29 = false ∧ decide ((39 : JSNum) = 29) = false := by
  refine ⟨by decide, by decide, by decide⟩

/-- C4 (amended): for an item whose title contains a quoted phrase of the query and
exactly matches the query's one general term, with description and source matching
neither, the score is `weights.title * 10 + weights.title * 3 = 30 + 9 = 39`. -/
theorem c4_phrase_plus_term_title_score (item : Item) (pq : ParsedQuery) (wb : Bool)
    (ft : JSNum) (p t : JSStr)
    (hph : pq.quotedPhrases = [p])
    (hfq : pq.fieldQueries = ⟨[], [], [], [t]⟩)
    (hT : jsIncludes (jsToLower item.title) (jsToLower p) = true)
    (hD : jsIncludes (jsToLower item.description) (jsToLower p) = false)
    (hS : jsIncludes (jsToLower item.source) (jsToLower p) = false)
    (hMT : matchesTerm (jsToLower item.title) t wb ft = .exact)
    (hMD : matchesTerm (jsToLower item.description) t wb ft = .noMatch)
    (hMS : matchesTerm (jsToLower item.source) t wb ft = .noMatch) :
    (calculateRelevanceScore item pq wb ft).score = 39 := by
  unfold calculateRelevanceScore
  rw [hph, hfq]
  simp only [List.foldl, phraseStep, hT, hD, hS, generalLoop, hMT, hMD, hMS,
    JsMatch.matched, JsMatch.isExact, finalizeScore]
  simp
  decide

/-- Witness for the amended C4 at the concrete item and query of the
counterexample. -/
theorem c4_phrase_plus_term_title_score_witness :
    (calculateRelevanceScore ⟨str "alpha", [], [], some 0⟩
      ⟨[str "alpha"], ⟨[], [], [], [str "alpha"]⟩, .AND, []⟩ true 0).score = 39 :=
  c4_phrase_plus_term_title_score _ _ _ _ (str "alpha") (str "alpha") rfl rfl
    (by decide) (by decide) (by decide) (by decide) (by decide) (by decide)

/-- C5 (counterexample): `searchCachedFeeds` does not clamp `fuzzyTolerance` to
`[0, 2]`: with tolerance 5 an item at edit distance 3 (`xyz` vs term `abc`) is
admitted, while with the clamped value `max(0, min(2, 5)) = 2` the same search
returns nothing — so the two searches differ. -/
theorem c5_counterexample :
    (searchCachedFeedsCore [⟨str "f", [⟨str "xyz", [], [], some 0⟩]⟩] (str "abc") 20
      { fuzzyTolerance := 5 } (fun _ => [0])).results.length = 1 ∧
    (searchCachedFeedsCore [⟨str "f", [⟨str "xyz", [], [], some 0⟩]⟩] (str "abc") 20
      { fuzzyTolerance := 2 } (fun _ => [0])).results = [] ∧
    decide (searchCachedFeedsCore [⟨str "f", [⟨str "xyz", [], [], some 0⟩]⟩]
        (str "abc") 20 { fuzzyTolerance := 5 } (fun _ => [0]) =
      searchCachedFeedsCore [⟨str "f", [⟨str "xyz", [], [], some 0⟩]⟩] (str "abc") 20
        { fuzzyTolerance := 2 } (fun _ => [0])) = false := by
  refine ⟨by decide, by decide, by decide⟩

/-- C9 (counterexample): the word-boundary branch is not redundant.  On the text
`aςb` (Greek final sigma) with term `σ`: lowercasing leaves `ς` and `σ` distinct, so
the substring check fails, but the case-insensitive regex canonicalizes both to `Σ`
and `\bσ\b` matches — `useWordBoundary` flips the result. -/
theorem c9_counterexample :
    matchesTerm (str "aςb") (str "σ") true 0 = .exact ∧
    matchesTerm (str "aςb") (str "σ") false 0 = .noMatch ∧
    decide (matchesTerm (str "aςb") (str "σ") true 0 =
      matchesTerm (str "aςb") (str "σ") false 0) = false := by
  refine ⟨by decide, by decide, by decide⟩

/-- C6 (code bug): `getCachedParsedFeed` on a cached path whose stored mtime (1000)
differs from the file's current mtime (2000) does not reparse: it calls
`parsedFeedCache.delete`, a method the `LRUCache` class does not define, and throws
a `TypeError` — in particular it does not return the fresh parse result `8`. -/
theorem c6_stale_entry_throws :
    getCachedParsedFeed (α := Nat) ⟨50, [(str "p", ⟨7, 1000⟩)]⟩ (str "p") true 2000
      (some 8) = .error "TypeError: parsedFeedCache.delete is not a function" := rfl

/-- C3 (amended): a scorer exception is caught by the per-feed `try`/`catch` and
converted into zero items for that feed; `searchCachedFeeds` itself always resolves
(never rejects), whatever the scorer does. -/
theorem c3_scorer_error_caught
    (scorer : Item → ParsedQuery → Bool → JSNum → Except String Relevance)
    (feeds : List CachedFeed) (query : JSStr) (limit : Nat) (opts : SearchOptions)
    (sched : Nat → List Nat) :
    (∃ r, searchCachedFeedsE scorer feeds query limit opts sched = Except.ok r) ∧
    ∀ (pq : ParsedQuery) (wb : Bool) (ft : JSNum) (dF dT : Option (Option Int))
      (pfl : Nat) (feed : CachedFeed) (e : String),
      processFeedE scorer pq wb ft dF dT pfl feed = Except.error e →
      jsTryCatch (processFeedE scorer pq wb ft dF dT pfl feed)
        (fun _ => ([] : List ScoredItem)) = [] := by
  constructor
  · exact ⟨_, rfl⟩
  · intro pq wb ft dF dT pfl feed e h
    rw [h]
    rfl

/-- Witness for the amended C3: the per-feed handler of the concrete throwing
search turns the feed's rejected task into no items. -/
theorem c3_scorer_error_caught_witness :
    jsTryCatch (processFeedE throwingScorer (parseQuery (str "alpha")) true 1 none
      none 10 feedF) (fun _ => ([] : List ScoredItem)) = [] :=
  (c3_scorer_error_caught throwingScorer [feedF] (str "alpha") 20 {}
      (fun _ => [0])).2 (parseQuery (str "alpha")) true 1 none none 10 feedF
    "TypeError: Cannot read properties of undefined" rfl

/-- C3 (counterexample): a scorer that throws on the orchestrator's only feed makes
`processFeedE` reject, yet `searchCachedFeeds` resolves with that feed contributing
zero items — the exception does not propagate to the caller. -/
theorem c3_counterexample :
    processFeedE throwingScorer (parseQuery (str "alpha")) true 1 none none 10 feedF =
      .error "TypeError: Cannot read properties of undefined" ∧
    searchCachedFeedsE throwingScorer [feedF] (str "alpha") 20 {} (fun _ => [0]) =
      .ok { query := str "alpha", results := [],
            metadata := ⟨0, 0, 1, 0, parseQuery (str "alpha")⟩ } := by
  exact ⟨rfl, rfl⟩

/-- Unfolding lemma for the `JSNum` order. -/
theorem JSNum.lt_def (a b : JSNum) :
    (a < b) = (a.num * (b.den : Int) < b.num * (a.den : Int)) := rfl

/-- Unfolding lemma for the `JSNum` order. -/
theorem JSNum.le_def (a b : JSNum) :
    (a ≤ b) = (a.num * (b.den : Int) ≤ b.num * (a.den : Int)) := rfl

/-- Numerator of a `JSNum` numeral. -/
theorem JSNum.num_ofNat (n : Nat) : (OfNat.ofNat n : JSNum).num = (n : Int) := rfl

/-- Denominator of a `JSNum` numeral. -/
theorem JSNum.den_ofNat (n : Nat) : (OfNat.ofNat n : JSNum).den = 1 := rfl

/-- C5 (amended): `searchCachedFeeds` applies no clamping — the supplied
`fuzzyTolerance` reaches `matchesTerm` unchanged, and a fuzzy candidate at edit
distance 3 (text `xyz`, term `abc`) is admitted exactly when `3 ≤ fuzzyTolerance`,
for every supplied tolerance; in particular tolerance 5 admits it while the clamped
value 2 would not. -/
theorem c5_no_clamp (ft : JSNum) (hden : 0 < ft.den) :
    matchesTerm (str "xyz") (str "abc") true ft =
      if (3 : JSNum) ≤ ft then .fuzzy 3 else .noMatch := by
  have h1 : jsIncludes (jsToLower (str "xyz")) (jsToLower (str "abc")) = false := by
    decide
  have h2 : wbTest (str "xyz") (jsToLower (str "abc")) = false := by decide
  have h3 : jsSplitWs (jsToLower (str "xyz")) = [str "xyz"] := by decide
  have h4 : levenshteinDistance (jsToLower (str "abc")) (str "xyz") = 3 := by decide
  simp only [matchesTerm, h1, h2, h3, Bool.and_false, Bool.false_eq_true, if_false]
  simp only [fuzzyLoop, h4]
  have hw : ((str "xyz").length : Int) ≥ ((jsToLower (str "abc")).length : Int) - 2 ∧
      ((str "xyz").length : Int) ≤ ((jsToLower (str "abc")).length : Int) + 2 := by
    decide
  rw [if_pos hw]
  rw [show ((3 : Nat) : JSNum) = (3 : JSNum) from rfl]
  split_ifs with h0 hle hle
  · rfl
  · rfl
  · exfalso
    have hle' : (3 : Int) * (ft.den : Int) ≤ ft.num * ((1 : Nat) : Int) := hle
    apply h0
    show (0 : Int) * (ft.den : Int) < ft.num * ((1 : Nat) : Int)
    omega
  · rfl

/-- Witness for the amended C5 at tolerance `7/2 = 3.5`: the distance-3 fuzzy match
is admitted, unclamped. -/
theorem c5_no_clamp_witness :
    0 < (⟨7, 2⟩ : JSNum).den ∧
    matchesTerm (str "xyz") (str "abc") true ⟨7, 2⟩ = .fuzzy 3 := by
  refine ⟨by decide, ?_⟩
  rw [c5_no_clamp ⟨7, 2⟩ (by decide)]
  decide

/-- `itemDate < NaN` is false. -/
theorem jsLtDate_none_right (a : Option Int) : jsLtDate a none = false := by
  cases a <;> rfl

/-- `itemDate > NaN` is false. -/
theorem jsGtDate_none_right (a : Option Int) : jsGtDate a none = false := by
  cases a <;> rfl

/-- A `dateFrom` bound that fails to parse (`new Date` gives `NaN`) filters exactly
like an absent bound. -/
theorem dateRangeFilter_invalid_from (dt : Option (Option Int)) (items : List Item) :
    dateRangeFilter (some none) dt items = dateRangeFilter none dt items := by
  cases dt with
  | none => simp [dateRangeFilter, jsLtDate_none_right]
  | some t => simp [dateRangeFilter, jsLtDate_none_right]

/-- A `dateTo` bound that fails to parse filters exactly like an absent bound. -/
theorem dateRangeFilter_invalid_to (df : Option (Option Int)) (items : List Item) :
    dateRangeFilter df (some none) items = dateRangeFilter df none items := by
  cases df with
  | none => simp [dateRangeFilter, jsGtDate_none_right]
  | some t => simp [dateRangeFilter, jsGtDate_none_right]

/-- The per-feed task with an unparseable `dateFrom` equals the one with no
`dateFrom`. -/
theorem processFeed_invalid_from (pq : ParsedQuery) (wb : Bool) (ft : JSNum)
    (dt : Option (Option Int)) (pfl : Nat) :
    processFeed pq wb ft (some none) dt pfl = processFeed pq wb ft none dt pfl := by
  funext feed
  simp only [processFeed, dateRangeFilter_invalid_from]

/-- The per-feed task with an unparseable `dateTo` equals the one with no
`dateTo`. -/
theorem processFeed_invalid_to (pq : ParsedQuery) (wb : Bool) (ft : JSNum)
    (df : Option (Option Int)) (pfl : Nat) :
    processFeed pq wb ft df (some none) pfl = processFeed pq wb ft df none pfl := by
  funext feed
  simp only [processFeed, dateRangeFilter_invalid_to]

/-- C7: a `dateFrom` or `dateTo` string that does not parse to a valid timestamp is
treated as no bound: the whole search behaves exactly as if the bound were absent
(and in particular completes normally, excluding no item on account of it). -/
theorem c7_invalid_date_bound_ignored (feeds : List CachedFeed) (query : JSStr)
    (limit : Nat) (opts : SearchOptions) (sched : Nat → List Nat) :
    searchCachedFeedsCore feeds query limit { opts with dateFrom := some none } sched =
      searchCachedFeedsCore feeds query limit { opts with dateFrom := none } sched ∧
    searchCachedFeedsCore feeds query limit { opts with dateTo := some none } sched =
      searchCachedFeedsCore feeds query limit { opts with dateTo := none } sched := by
  constructor
  · simp only [searchCachedFeedsCore, processFeed_invalid_from]
  · simp only [searchCachedFeedsCore, processFeed_invalid_to]

/-- Lowercasing keeps ASCII characters ASCII. -/
theorem jsToLowerCode_ascii_lt (c : Nat) (h : c < 128) : jsToLowerCode c < 128 := by
  unfold jsToLowerCode
  split_ifs <;> omega

/-- Lowercasing is idempotent on ASCII characters. -/
theorem jsToLowerCode_ascii_idem (c : Nat) (h : c < 128) :
    jsToLowerCode (jsToLowerCode c) = jsToLowerCode c := by
  unfold jsToLowerCode
  split_ifs <;> omega

/-- On ASCII characters, regex canonicalization equality implies lowercase
equality: if `p` is ASCII and already lowercase and `Canonicalize p =
Canonicalize c` for ASCII `c`, then `c` lowercases to `p`. -/
theorem ascii_canon_eq_imp_lower (p c : Nat) (hp : p < 128) (hc : c < 128)
    (hlp : jsToLowerCode p = p) (h : canonicalizeCode p = canonicalizeCode c) :
    jsToLowerCode c = p := by
  have hcanp : canonicalizeCode p = jsToUpperCode p := by
    simp only [canonicalizeCode]
    rw [if_neg]
    omega
  have hcanc : canonicalizeCode c = jsToUpperCode c := by
    simp only [canonicalizeCode]
    rw [if_neg]
    omega
  rw [hcanp, hcanc] at h
  have hup : jsToUpperCode p = if 97 ≤ p ∧ p ≤ 122 then p - 32 else p := by
    unfold jsToUpperCode
    split_ifs <;> omega
  have huc : jsToUpperCode c = if 97 ≤ c ∧ c ≤ 122 then c - 32 else c := by
    unfold jsToUpperCode
    split_ifs <;> omega
  have hlc : jsToLowerCode c = if 65 ≤ c ∧ c ≤ 90 then c + 32 else c := by
    unfold jsToLowerCode
    split_ifs <;> omega
  have hlp' : jsToLowerCode p = if 65 ≤ p ∧ p ≤ 90 then p + 32 else p := by
    unfold jsToLowerCode
    split_ifs <;> omega
  rw [hup, huc] at h
  rw [hlp'] at hlp
  rw [hlc]
  split_ifs at h hlp ⊢ <;> omega

/-- A case-insensitive regex literal match of an ASCII, lowercase pattern against
ASCII text implies a plain lowercase-text match. -/
theorem canonStartsWith_imp_lower (pat : JSStr) :
    ∀ s : JSStr, (∀ c ∈ s, c < 128) →
      (∀ c ∈ pat, c < 128 ∧ jsToLowerCode c = c) →
      canonStartsWith s pat = true → listStartsWith (jsToLower s) pat = true := by
  induction pat with
  | nil => intro s _ _ _; cases s <;> rfl
  | cons p ps ih =>
    intro s hs hp hmatch
    cases s with
    | nil => exact absurd hmatch (by simp [canonStartsWith])
    | cons c rest =>
      simp only [canonStartsWith, Bool.and_eq_true, decide_eq_true_eq] at hmatch
      have hc := hs c (List.mem_cons_self _ _)
      have hpp := hp p (List.mem_cons_self _ _)
      have hlow : jsToLowerCode c = p :=
        ascii_canon_eq_imp_lower p c hpp.1 hc hpp.2 hmatch.1
      show (decide (jsToLowerCode c = p) && _) = true
      rw [hlow]
      simp only [decide_True, Bool.true_and]
      exact ih rest (fun d hd => hs d (List.mem_cons_of_mem _ hd))
        (fun d hd => hp d (List.mem_cons_of_mem _ hd)) hmatch.2

/-- A match of `pat` at offset `i` of `s` makes `pat` a substring of `s`. -/
theorem jsIncludes_of_startsWith_drop (pat : JSStr) :
    ∀ (i : Nat) (s : JSStr), listStartsWith (s.drop i) pat = true →
      jsIncludes s pat = true := by
  intro i
  induction i with
  | zero =>
    intro s h
    cases s with
    | nil => simpa using h
    | cons c rest =>
      simp only [List.drop_zero] at h
      simp [jsIncludes, h]
  | succ n ih =>
    intro s h
    cases s with
    | nil =>
      cases pat with
      | nil => rfl
      | cons p ps => exact absurd h (by simp [listStartsWith])
    | cons c rest =>
      have hr := ih rest h
      simp [jsIncludes, hr]

/-- For ASCII text and an ASCII, lowercase pattern, a word-boundary regex match
implies the case-insensitive substring check already succeeds. -/
theorem wbTest_imp_includes (text pat : JSStr) (htext : ∀ c ∈ text, c < 128)
    (hpat : ∀ c ∈ pat, c < 128 ∧ jsToLowerCode c = c) (h : wbTest text pat = true) :
    jsIncludes (jsToLower text) pat = true := by
  rw [wbTest, List.any_eq_true] at h
  obtain ⟨i, _, hcond⟩ := h
  rw [Bool.and_assoc, Bool.and_eq_true, Bool.and_eq_true] at hcond
  have hmatch := hcond.2.1
  have hdrop : ∀ c ∈ text.drop i, c < 128 := fun c hc =>
    htext c (List.drop_subset i text hc)
  have hstart := canonStartsWith_imp_lower pat (text.drop i) hdrop hpat hmatch
  rw [show jsToLower (text.drop i) = (jsToLower text).drop i from
    List.map_drop jsToLowerCode text i] at hstart
  exact jsIncludes_of_startsWith_drop pat i (jsToLower text) hstart

/-- C9 (amended): for ASCII text and term the word-boundary branch can only succeed
when the substring check already has, so `useWordBoundary` never changes the
outcome; outside ASCII it can (see the Greek-sigma counterexample). -/
theorem c9_word_boundary_redundant_ascii (text term : JSStr) (ft : JSNum)
    (htext : ∀ c ∈ text, c < 128) (hterm : ∀ c ∈ term, c < 128) :
    matchesTerm text term true ft = matchesTerm text term false ft := by
  by_cases hinc : jsIncludes (jsToLower text) (jsToLower term) = true
  · simp only [matchesTerm, hinc, if_true]
  · have hlow : ∀ c ∈ jsToLower term, c < 128 ∧ jsToLowerCode c = c := by
      intro c hc
      obtain ⟨d, hd, rfl⟩ := List.mem_map.mp hc
      exact ⟨jsToLowerCode_ascii_lt d (hterm d hd),
        jsToLowerCode_ascii_idem d (hterm d hd)⟩
    have hwb : wbTest text (jsToLower term) = false := by
      cases hx : wbTest text (jsToLower term) with
      | false => rfl
      | true => exact absurd (wbTest_imp_includes text (jsToLower term) htext hlow hx) hinc
    rw [Bool.not_eq_true] at hinc
    simp only [matchesTerm, hinc, hwb, Bool.and_false, Bool.true_and,
      Bool.false_eq_true, if_false]

/-- Witness for the amended C9 at concrete ASCII inputs. -/
theorem c9_word_boundary_redundant_ascii_witness :
    matchesTerm (str "start") (str "Art") true 1 =
      matchesTerm (str "start") (str "Art") false 1 :=
  c9_word_boundary_redundant_ascii (str "start") (str "Art") 1 (by decide) (by decide)

/-- Slot `j` of the `Promise.all` result array after the writes of `sched`: written
iff `j` completed (every write to slot `j` stores the same task result). -/
theorem promiseAll_foldl_getElem? {β : Type} (f : Nat → β) (j : Nat) :
    ∀ (sched : List Nat) (acc : List (Option β)),
      (sched.foldl (fun a i => a.set i (some (f i))) acc)[j]? =
        if j ∈ sched ∧ j < acc.length then some (some (f j)) else acc[j]? := by
  intro sched
  induction sched with
  | nil => intro acc; simp
  | cons i rest ih =>
    intro acc
    rw [List.foldl_cons, ih, List.length_set]
    by_cases hm : j ∈ rest ∧ j < acc.length
    · rw [if_pos hm, if_pos ⟨List.mem_cons_of_mem _ hm.1, hm.2⟩]
    · rw [if_neg hm, List.getElem?_set]
      by_cases hij : i = j
      · subst hij
        by_cases hlen : i < acc.length
        · simp [hlen]
        · rw [if_pos rfl, if_neg hlen, if_neg (fun hc => hlen hc.2),
            List.getElem?_eq_none (by omega)]
      · rw [if_neg hij]
        rw [if_neg (fun hc => ?_)]
        rcases List.mem_cons.mp hc.1 with h1 | h1
        · exact hij h1.symm
        · exact hm ⟨h1, hc.2⟩

/-- After a valid completion schedule, the `Promise.all` slots are exactly the
results in task (array) order. -/
theorem promiseAll_eq_map {β : Type} (f : Nat → β) (n : Nat) (sched : List Nat)
    (h : ∀ i, i < n → i ∈ sched) :
    promiseAll f n sched = (List.range n).map (fun i => some (f i)) := by
  apply List.ext_getElem?
  intro j
  rw [promiseAll, promiseAll_foldl_getElem?, List.length_replicate]
  by_cases hj : j < n
  · rw [if_pos ⟨h j hj, hj⟩, List.getElem?_map, List.getElem?_range hj]
    rfl
  · rw [if_neg (fun hc => hj hc.2), List.getElem?_replicate, if_neg hj,
      List.getElem?_map, List.getElem?_eq_none (by simpa using hj)]
    rfl

/-- Reading every index of a list back in order reproduces the list. -/
theorem range_map_getD {α : Type} (l : List α) (d : α) :
    (List.range l.length).map (fun i => l.getD i d) = l := by
  induction l with
  | nil => rfl
  | cons x xs ih =>
    rw [List.length_cons, List.range_succ_eq_map, List.map_cons, List.map_map]
    rw [show ((fun i => (x :: xs).getD i d) ∘ Nat.succ) = (fun i => xs.getD i d) from
      rfl]
    rw [ih]
    rfl

/-- With a valid schedule, a chunk's `Promise.all` outcome is the per-feed results
in chunk order. -/
theorem chunkRun_eq_map (process : CachedFeed → List ScoredItem)
    (chunk : List CachedFeed) (sched : List Nat) (h : ValidSched sched chunk.length) :
    chunkRun process chunk sched = chunk.map (fun feed => process feed) := by
  rw [chunkRun, promiseAll_eq_map _ _ _ h, List.map_map]
  have : ((fun o => o.getD []) ∘ fun i =>
      some (process (chunk.getD i default))) = fun i => process (chunk.getD i default) :=
    rfl
  rw [this]
  rw [show (fun i => process (chunk.getD i default)) =
    ((fun feed => process feed) ∘ fun i => chunk.getD i default) from rfl]
  rw [← List.map_map, range_map_getD]

/-- With valid schedules for every chunk, the sequential chunk loop produces the
canonical (completion-order-independent) merge. -/
theorem runChunks_eq_of_valid (process : CachedFeed → List ScoredItem)
    (sched : Nat → List Nat) :
    ∀ (chunks : List (List CachedFeed)) (k : Nat),
      (∀ j, ValidSched (sched (k + j)) ((chunks.getD j []).length)) →
      runChunks process sched chunks k =
        (chunks.map (fun c => (c.map (fun feed => process feed)).flatten)).flatten := by
  intro chunks
  induction chunks with
  | nil => intro k _; rfl
  | cons chunk rest ih =>
    intro k h
    have h0 : ValidSched (sched k) chunk.length := by
      have := h 0
      simpa using this
    have hrest : ∀ j, ValidSched (sched (k + 1 + j)) ((rest.getD j []).length) := by
      intro j
      have := h (j + 1)
      rw [show k + (j + 1) = k + 1 + j by omega] at this
      simpa using this
    simp only [runChunks]
    rw [chunkRun_eq_map _ _ _ h0, ih (k + 1) hrest, List.map_cons, List.flatten_cons]

/-- C8: for a fixed cache state, fixed query, fixed limit and fixed options, the
search result — items, order and scores, and all modelled metadata — is the same for
any two (complete) I/O completion orders of the per-chunk `Promise.all` batches. -/
theorem c8_search_deterministic (feeds : List CachedFeed) (query : JSStr)
    (limit : Nat) (opts : SearchOptions) (sched₁ sched₂ : Nat → List Nat)
    (h₁ : ∀ j, ValidSched (sched₁ j)
      (((chunksOf 10 (resolveFeeds feeds opts.feedUrls)).getD j []).length))
    (h₂ : ∀ j, ValidSched (sched₂ j)
      (((chunksOf 10 (resolveFeeds feeds opts.feedUrls)).getD j []).length)) :
    searchCachedFeedsCore feeds query limit opts sched₁ =
      searchCachedFeedsCore feeds query limit opts sched₂ := by
  simp only [searchCachedFeedsCore]
  rw [runChunks_eq_of_valid _ sched₁ _ 0 (fun j => by simpa using h₁ j),
    runChunks_eq_of_valid _ sched₂ _ 0 (fun j => by simpa using h₂ j)]

/-- Witness for C8: a one-feed cache searched under two different completion
schedules yields identical results. -/
theorem c8_search_deterministic_witness :
    searchCachedFeedsCore [feedF] (str "alpha") 20 {} (fun _ => [0]) =
      searchCachedFeedsCore [feedF] (str "alpha") 20 {} (fun _ => [0, 0, 7]) := by
  refine c8_search_deterministic [feedF] (str "alpha") 20 {} _ _ ?_ ?_ <;>
  · intro j
    cases j with
    | zero =>
      intro i hi
      have hi1 : i < 1 := hi
      have hz : i = 0 := by omega
      subst hz
      decide
    | succ n =>
      intro i hi
      exact absurd (show i < 0 from hi) (Nat.not_lt_zero i)

/-- Regex canonicalization fixes every whitespace code point. -/
theorem canonicalizeCode_ws (c : Nat) (h : isWsCode c = true) :
    canonicalizeCode c = c := by
  have hs := of_decide_eq_true h
  simp only [canonicalizeCode, jsToUpperCode]
  split_ifs <;> omega

/-- A case-insensitive literal match fails on differing canonicalizations. -/
theorem canonStartsWith_cons_false (c p : Nat) (rest ps : JSStr)
    (h : canonicalizeCode p ≠ canonicalizeCode c) :
    canonStartsWith (c :: rest) (p :: ps) = false := by
  simp [canonStartsWith, h]

/-- The quote regex finds no match in whitespace-only text. -/
theorem findQuoteAux_ws : ∀ l : JSStr, (∀ c ∈ l, isWsCode c = true) →
    ∀ p, findQuoteAux l p = none := by
  intro l
  induction l with
  | nil => intro _ p; rfl
  | cons c rest ih =>
    intro h p
    have hc := h c (List.mem_cons_self _ _)
    have hne : c ≠ 34 := by
      have := of_decide_eq_true hc
      omega
    simp only [findQuoteAux, if_neg hne]
    exact ih (fun d hd => h d (List.mem_cons_of_mem _ hd)) (p + 1)

/-- The field regex matches at no whitespace position. -/
theorem tryFieldAt_ws (c : Nat) (rest : JSStr) (hc : isWsCode c = true) :
    tryFieldAt (c :: rest) = none := by
  have hcanon := canonicalizeCode_ws c hc
  have hs := of_decide_eq_true hc
  have ht : canonStartsWith (c :: rest) (fieldName .title ++ [58]) = false := by
    rw [show fieldName FName.title ++ [58] = 116 :: (str "itle" ++ [58]) from by decide]
    apply canonStartsWith_cons_false
    rw [hcanon, show canonicalizeCode 116 = 84 from by decide]
    omega
  have hd : canonStartsWith (c :: rest) (fieldName .description ++ [58]) = false := by
    rw [show fieldName FName.description ++ [58] = 100 :: (str "escription" ++ [58])
      from by decide]
    apply canonStartsWith_cons_false
    rw [hcanon, show canonicalizeCode 100 = 68 from by decide]
    omega
  have hsrc : canonStartsWith (c :: rest) (fieldName .source ++ [58]) = false := by
    rw [show fieldName FName.source ++ [58] = 115 :: (str "ource" ++ [58]) from by
      decide]
    apply canonStartsWith_cons_false
    rw [hcanon, show canonicalizeCode 115 = 83 from by decide]
    omega
  simp [tryFieldAt, ht, hd, hsrc]

/-- The field regex finds no match in whitespace-only text. -/
theorem findFieldAux_ws : ∀ l : JSStr, (∀ c ∈ l, isWsCode c = true) →
    ∀ p, findFieldAux l p = none := by
  intro l
  induction l with
  | nil => intro _ p; rfl
  | cons c rest ih =>
    intro h p
    simp only [findFieldAux, tryFieldAt_ws c rest (h c (List.mem_cons_self _ _))]
    exact ih (fun d hd => h d (List.mem_cons_of_mem _ hd)) (p + 1)

/-- `/\s+OR\s+/i` does not match whitespace-only text. -/
theorem hasOrSep_ws : ∀ l : JSStr, (∀ c ∈ l, isWsCode c = true) →
    hasOrSep l = false := by
  intro l
  induction l with
  | nil => intro _; rfl
  | cons a rest ih =>
    intro h
    rw [hasOrSep, ih (fun d hd => h d (List.mem_cons_of_mem _ hd)), Bool.or_false]
    rcases rest with _ | ⟨b, _ | ⟨c2, _ | ⟨d, t⟩⟩⟩
    · rfl
    · rfl
    · rfl
    · have hb := h b (by simp)
      have hbc := canonicalizeCode_ws b hb
      have hb79 : b ≠ 79 := by
        have := of_decide_eq_true hb
        omega
      simp [orWindow, hbc, hb79]

/-- `(?:AND|OR)\s+` does not match at the start of whitespace-only text. -/
theorem sepTrailing_ws (s : JSStr) (h : ∀ c ∈ s, isWsCode c = true) :
    sepTrailing s = none := by
  cases s with
  | nil => rfl
  | cons c rest =>
    have hc := h c (List.mem_cons_self _ _)
    have hcn := canonicalizeCode_ws c hc
    have hws := of_decide_eq_true hc
    have h1 : canonStartsWith (c :: rest) (str "and") = false := by
      rw [show str "and" = 97 :: str "nd" from by decide]
      apply canonStartsWith_cons_false
      rw [hcn, show canonicalizeCode 97 = 65 from by decide]
      omega
    have h2 : canonStartsWith (c :: rest) (str "or") = false := by
      rw [show str "or" = 111 :: str "r" from by decide]
      apply canonStartsWith_cons_false
      rw [hcn, show canonicalizeCode 111 = 79 from by decide]
      omega
    simp [sepTrailing, h1, h2]

/-- The split separator regex matches at no position of whitespace-only text. -/
theorem matchSepAt_ws (s : JSStr) (h : ∀ c ∈ s, isWsCode c = true) :
    matchSepAt s = none := by
  rw [matchSepAt]
  generalize wsRunLen s = k
  induction k with
  | zero => rfl
  | succ n ih =>
    simp only [sepTryK,
      sepTrailing_ws (s.drop (n + 1)) (fun d hd => h d (List.drop_subset _ _ hd))]
    exact ih

/-- Splitting whitespace-only text on `AND`/`OR` yields the single piece itself. -/
theorem splitSepGo_ws : ∀ (fuel : Nat) (acc s : JSStr),
    (∀ c ∈ s, isWsCode c = true) → s.length < fuel →
    splitSepGo fuel acc s = [acc.reverse ++ s] := by
  intro fuel
  induction fuel with
  | zero => intro acc s _ hlen; exact absurd hlen (Nat.not_lt_zero _)
  | succ n ih =>
    intro acc s h hlen
    cases s with
    | nil => simp [splitSepGo]
    | cons c rest =>
      simp only [splitSepGo, matchSepAt_ws _ h]
      rw [ih (c :: acc) rest (fun d hd => h d (List.mem_cons_of_mem _ hd))
        (by simpa using Nat.lt_of_succ_lt_succ hlen)]
      simp

/-- Trimming whitespace-only text gives the empty string. -/
theorem jsTrim_ws (s : JSStr) (h : ∀ c ∈ s, isWsCode c = true) : jsTrim s = [] := by
  have hdrop : s.dropWhile isWsCode = [] := by
    induction s with
    | nil => rfl
    | cons c rest ih =>
      rw [List.dropWhile_cons, if_pos (h c (List.mem_cons_self _ _))]
      exact ih (fun d hd => h d (List.mem_cons_of_mem _ hd))
  rw [jsTrim, hdrop]
  rfl

/-- A whitespace-only (in particular empty) query parses to the empty structured
query: no phrases, no field terms, no general terms, AND logic. -/
theorem parseQuery_ws (q : JSStr) (h : ∀ c ∈ q, isWsCode c = true) :
    parseQuery q = ⟨[], ⟨[], [], [], []⟩, .AND, []⟩ := by
  have hquote : quoteLoopGo q (q.length + 1) 0 q [] = ([], q) := by
    simp [quoteLoopGo, findQuoteAux_ws q h 0]
  have hfield : fieldLoopGo (q.length + 1) ⟨[], [], [], []⟩ q 0 =
      (⟨[], [], [], []⟩, q) := by
    simp [fieldLoopGo, findFieldAux_ws q h 0]
  have hsplit : jsSplitSep q = [q] := by
    rw [jsSplitSep, splitSepGo_ws (q.length + 1) [] q h (by omega)]
    rfl
  simp [parseQuery, hquote, hfield, hasOrSep_ws q h, hsplit, jsTrim_ws q h]

/-- With the empty structured query, the scorer returns score 0 with no matched
fields and empty position lists, for every item. -/
theorem calculateRelevanceScore_empty_query (item : Item) (wb : Bool) (ft : JSNum) :
    calculateRelevanceScore item ⟨[], ⟨[], [], [], []⟩, .AND, []⟩ wb ft =
      ⟨0, [], .fields [] [] []⟩ := rfl

/-- Mapping every element to `null` and compacting yields nothing. -/
theorem filterMap_id_map_none {α β : Type} (l : List α) :
    (l.map fun _ => (none : Option β)).filterMap id = [] := by
  induction l with
  | nil => rfl
  | cons x xs ih => simp [ih]

/-- With the empty structured query every per-feed task yields no items: every item
scores 0 and AND logic maps it to `null`. -/
theorem processFeed_empty_query (wb : Bool) (ft : JSNum)
    (dF dT : Option (Option Int)) (pfl : Nat) (feed : CachedFeed) :
    processFeed ⟨[], ⟨[], [], [], []⟩, .AND, []⟩ wb ft dF dT pfl feed = [] := by
  simp only [processFeed, calculateRelevanceScore_empty_query,
    show jsNumEq (0 : JSNum) 0 = true from rfl, eq_self_iff_true, true_and, and_self,
    if_true]
  rw [filterMap_id_map_none]
  simp [stableSortBy]

/-- Every `Promise.all` slot of all-empty tasks reads back as the empty list. -/
theorem promiseAll_slots_nil (g : Nat → List ScoredItem) (hg : ∀ i, g i = [])
    (n : Nat) (sched : List Nat) :
    ∀ o ∈ promiseAll g n sched, o.getD [] = [] := by
  suffices hstep : ∀ (acc : List (Option (List ScoredItem))),
      (∀ o ∈ acc, o.getD [] = []) →
      ∀ o ∈ sched.foldl (fun a i => a.set i (some (g i))) acc, o.getD [] = [] by
    intro o ho
    refine hstep (List.replicate n none) ?_ o ho
    intro o2 ho2
    rw [List.eq_of_mem_replicate ho2]
    rfl
  induction sched with
  | nil => intro acc hacc o ho; exact hacc o ho
  | cons i rest ih =>
    intro acc hacc o ho
    rw [List.foldl_cons] at ho
    refine ih _ ?_ o ho
    intro o2 ho2
    rcases List.mem_or_eq_of_mem_set ho2 with h2 | h2
    · exact hacc o2 h2
    · rw [h2, hg i]
      rfl

/-- A chunk of all-empty per-feed tasks contributes nothing. -/
theorem chunkRun_flatten_nil (process : CachedFeed → List ScoredItem)
    (hp : ∀ f, process f = []) (chunk : List CachedFeed) (sched : List Nat) :
    (chunkRun process chunk sched).flatten = [] := by
  rw [chunkRun, List.flatten_eq_nil_iff]
  intro l hl
  obtain ⟨o, ho, rfl⟩ := List.mem_map.mp hl
  exact promiseAll_slots_nil _ (fun i => hp _) _ _ o ho

/-- The whole chunk loop of all-empty per-feed tasks produces nothing. -/
theorem runChunks_nil (process : CachedFeed → List ScoredItem)
    (hp : ∀ f, process f = []) (sched : Nat → List Nat) :
    ∀ (chunks : List (List CachedFeed)) (k : Nat),
      runChunks process sched chunks k = [] := by
  intro chunks
  induction chunks with
  | nil => intro k; rfl
  | cons chunk rest ih =>
    intro k
    simp only [runChunks]
    rw [chunkRun_flatten_nil process hp chunk (sched k), ih (k + 1)]
    rfl

/-- C10: for the empty query — and any whitespace-only query — and every cache
state, the search returns `results = []` and `metadata.totalMatches = 0`: the parse
has no phrases, field terms or general terms, every item scores 0, and the
`score > 0` admission test rejects everything. -/
theorem c10_whitespace_query_empty (feeds : List CachedFeed) (limit : Nat)
    (opts : SearchOptions) (sched : Nat → List Nat) (query : JSStr)
    (hq : ∀ c ∈ query, isWsCode c = true) :
    (searchCachedFeedsCore feeds query limit opts sched).results = [] ∧
    (searchCachedFeedsCore feeds query limit opts sched).metadata.totalMatches = 0 := by
  have hrun := runChunks_nil
    (processFeed ⟨[], ⟨[], [], [], []⟩, .AND, []⟩ opts.useWordBoundary
      opts.fuzzyTolerance opts.dateFrom opts.dateTo opts.perFeedLimit)
    (fun f => processFeed_empty_query _ _ _ _ _ f) sched
    (chunksOf 10 (resolveFeeds feeds opts.feedUrls)) 0
  constructor <;>
    simp [searchCachedFeedsCore, parseQuery_ws query hq, hrun, stableSortBy]

/-- Witness for C10 at the whitespace query `"  "` on a nonempty cache. -/
theorem c10_whitespace_query_empty_witness :
    (searchCachedFeedsCore [feedF] (str "  ") 20 {} (fun _ => [0])).results = [] ∧
    (searchCachedFeedsCore [feedF] (str "  ") 20 {} (fun _ => [0])).metadata.totalMatches
      = 0 :=
  c10_whitespace_query_empty [feedF] 20 {} (fun _ => [0]) (str "  ") (by decide)
